import Mathlib

/-!
Verification of the ocmt AI inference session protocol client.

This file gives a shallow embedding, in Lean 4, of the event-stream
consumer, permission negotiation, session close, model-string parsing and
deslop git snapshot/restore logic of the repository, and proves or refutes
the frozen specification claims about them.

The event stream consumer is `processEventStream` in
`src/src/lib/opencode-cli.ts`.  Its `for await (const event of eventStream)`
loop is embedded as a structurally recursive function `runEvents` over a
finite list of events, each paired with its arrival time in milliseconds
since the loop started (`Date.now() - startTime`).  User interaction and
permission-response delivery, which do not influence the loop state, are
driven by an oracle list and observed through ghost outputs (responses
sent, warnings logged).
-/

/-- `AssistantMessage.time` from the SDK: `time.completed?: number`. -/
structure MessageTime where
  completed : Option Nat
deriving DecidableEq

/-- The message envelope `event.properties.info` of a `message.updated`
event (the fields the client reads). -/
structure MessageInfo where
  id : String
  sessionID : String
  role : String
  time : MessageTime
deriving DecidableEq

/-- A content part from a `message.part.updated` event (the fields the
client reads: `id`, `sessionID`, `messageID`, `type`, `text`). -/
structure MsgPart where
  id : String
  sessionID : String
  messageID : String
  type : String
  text : String
deriving DecidableEq

/-- A pending permission request (the fields the consumer loop reads). -/
structure Permission where
  id : String
  sessionID : String
deriving DecidableEq

/-- The backend-reported error of a `session.error` event:
`error.name`, and `error.data.message` when a data payload is present. -/
structure NamedError where
  name : String
  dataMessage : Option String
deriving DecidableEq

/-- The tagged union of feed events consumed by `processEventStream`.
`other` stands for any event which carries no `properties` object. -/
inductive Event where
  | permissionUpdated (perm : Permission)
  | messageUpdated (info : MessageInfo)
  | messagePartUpdated (part : MsgPart)
  | sessionError (sessionID : Option String) (error : Option NamedError)
  | sessionIdle (sessionID : String)
  | other
deriving DecidableEq

/-- `isEventForSession` (opencode-cli.ts:764-798): an event belongs to the
session when its properties carry the session id directly, or nested under
an `info` or `part` sub-object; events without properties never match.
Each event shape exposes exactly the fields probed by the source. -/
def isEventForSession (event : Event) (sessionID : String) : Bool :=
  match event with
  | .permissionUpdated perm => perm.sessionID == sessionID
  | .messageUpdated info => info.sessionID == sessionID
  | .messagePartUpdated part => part.sessionID == sessionID
  | .sessionError sid _ => sid == some sessionID
  | .sessionIdle sid => sid == sessionID
  | .other => false

/-- `isAssistantMessageComplete` (opencode-cli.ts:800-802):
`message.time.completed !== undefined`. -/
def isAssistantMessageComplete (message : MessageInfo) : Bool :=
  message.time.completed.isSome

/-- JS whitespace test for the characters relevant here (`String.trim`). -/
def isWs (c : Char) : Bool :=
  c == ' ' || c == '\t' || c == '\n' || c == '\r' || c == '\x0b' || c == '\x0c'

/-- JS `String.prototype.trim` on an explicit character list. -/
def jsTrim (l : List Char) : List Char :=
  ((l.dropWhile isWs).reverse.dropWhile isWs).reverse

/-- `jsTrim` lifted to Lean strings. -/
def trimString (s : String) : String := ⟨jsTrim s.data⟩

/-- `extractTextFromParts` (opencode-cli.ts:688-695): keep the parts whose
`type` is `"text"`, join their `text` fields and trim the result. -/
def extractTextFromParts (parts : List MsgPart) : String :=
  trimString (String.join ((parts.filter (fun part => part.type == "text")).map
    (fun part => part.text)))

/-- The result record of `processEventStream` (opencode-cli.ts:804-808);
`error` holds the error message. -/
structure EventStreamResult where
  assistantMessage : Option MessageInfo
  parts : List MsgPart
  error : Option String
deriving DecidableEq

/-- The text `runOpencodePrompt` derives from a stream result
(opencode-cli.ts:1093). -/
def returnedText (r : EventStreamResult) : String :=
  extractTextFromParts r.parts

/-- `collectedParts.set(part.id, part)` on the insertion-ordered map
(opencode-cli.ts:912): overwrite in place when the id is present,
append otherwise. -/
def upsertPart (parts : List MsgPart) (part : MsgPart) : List MsgPart :=
  if parts.any (fun q => q.id == part.id) then
    parts.map (fun q => if q.id == part.id then part else q)
  else parts ++ [part]

/-- The mutable state of the consumption loop: the insertion-ordered parts
map and the tracked assistant message. -/
structure LoopState where
  collectedParts : List MsgPart
  assistantMessage : Option MessageInfo
deriving DecidableEq

/-- Loop state at subscription time (opencode-cli.ts:816-817). -/
def initialLoopState : LoopState := ⟨[], none⟩

/-- Error message extraction of the `session.error` case
(opencode-cli.ts:916-934), with JS falsiness of the empty string. -/
def sessionErrorMessage (error : Option NamedError) : String :=
  match error with
  | some e =>
    let base :=
      match e.dataMessage with
      | some m => if m == "" then e.name else m
      | none => e.name
    if base == "" then "Session error occurred" else base
  | none => "Unknown session error"

/-- `once` / `always` / `reject` (opencode-cli.ts:458). -/
inductive PermissionResponse where
  | once
  | always
  | reject
deriving DecidableEq

/-- How one permission escalation round resolves: the user picked an
option, the user cancelled the prompt, the escalation timer fired first,
or the prompt itself threw. -/
inductive PromptOutcome where
  | selected (r : PermissionResponse)
  | cancelled
  | timedOut
  | threw
deriving DecidableEq

/-- Whether posting the permission response back to the backend succeeds. -/
inductive DeliveryOutcome where
  | ok
  | failed
deriving DecidableEq

/-- The decision produced by the negotiation code
(opencode-cli.ts:743-762 and 859-876): the user's selection, `reject` on
prompt cancellation (`p.isCancel`), `reject` when the
`PERMISSION_PROMPT_TIMEOUT_MS` timer wins the race, `reject` when the
prompt throws. -/
def resolvePermissionResponse : PromptOutcome → PermissionResponse
  | .selected r => r
  | .cancelled => .reject
  | .timedOut => .reject
  | .threw => .reject

/-- The warning logged when the permission response cannot be delivered
(opencode-cli.ts:883-887). -/
def permissionWarning : String := "Failed to send permission response"

/-- `OPERATION_TIMEOUT_MS` (opencode-cli.ts:456): five minutes. -/
def OPERATION_TIMEOUT_MS : Nat := 5 * 60 * 1000

/-- How the `for await` loop stopped: an explicit `return`/`break` with a
result, or the event list was exhausted with the loop state `s`. -/
inductive LoopOutcome where
  | returned (r : EventStreamResult)
  | ended (s : LoopState)
deriving DecidableEq

/-- Output of the consumption loop: its outcome plus ghost observations —
the permission responses effectively delivered (keyed by permission id)
and the warnings logged. -/
structure RunOutput where
  outcome : LoopOutcome
  sent : List (String × PermissionResponse)
  warnings : List String
deriving DecidableEq

/-- The `for await (const event of eventStream)` loop of
`processEventStream` (opencode-cli.ts:841-950).  Each event is paired with
its arrival time (ms since `startTime`); the wall-clock check
`Date.now() - startTime > OPERATION_TIMEOUT_MS` runs first, then the
session filter, then the per-type handling.  The oracle list supplies one
`(PromptOutcome, DeliveryOutcome)` pair per permission escalation. -/
def runEvents (sid : String) (deadline : Nat) :
    LoopState → List (Nat × Event) → List (PromptOutcome × DeliveryOutcome) → RunOutput
  | s, [], _ => ⟨.ended s, [], []⟩
  | s, (t, e) :: rest, oracle =>
    if t > deadline then
      ⟨.returned ⟨s.assistantMessage, s.collectedParts, some "Operation timed out"⟩, [], []⟩
    else if isEventForSession e sid then
      match e with
      | .permissionUpdated perm =>
        let oc := oracle.headD (.timedOut, .ok)
        let response := resolvePermissionResponse oc.1
        let out := runEvents sid deadline s rest oracle.tail
        match oc.2 with
        | .ok => { out with sent := (perm.id, response) :: out.sent }
        | .failed => { out with warnings := permissionWarning :: out.warnings }
      | .messageUpdated info =>
        if info.role == "assistant" then
          if isAssistantMessageComplete info then
            ⟨.returned ⟨some info, s.collectedParts, none⟩, [], []⟩
          else
            runEvents sid deadline { s with assistantMessage := some info } rest oracle
        else runEvents sid deadline s rest oracle
      | .messagePartUpdated part =>
        runEvents sid deadline
          { s with collectedParts := upsertPart s.collectedParts part } rest oracle
      | .sessionError _ err =>
        ⟨.returned ⟨s.assistantMessage, s.collectedParts, some (sessionErrorMessage err)⟩, [], []⟩
      | .sessionIdle _ =>
        match s.assistantMessage with
        | some m =>
          if isAssistantMessageComplete m then
            ⟨.returned ⟨some m, s.collectedParts, none⟩, [], []⟩
          else runEvents sid deadline s rest oracle
        | none => runEvents sid deadline s rest oracle
      | .other => runEvents sid deadline s rest oracle
    else runEvents sid deadline s rest oracle

/-- The code after the loop when the stream closed without a terminal
event and without a transport error (opencode-cli.ts:993-1013; the
timed-out `break` is folded into `runEvents` directly): return the tracked
assistant message if any, else the stream-ended error. -/
def streamEnded (s : LoopState) : EventStreamResult :=
  match s.assistantMessage with
  | some m => ⟨some m, s.collectedParts, none⟩
  | none => ⟨none, [], some "Event stream ended without completing"⟩

/-- `processEventStream` restricted to the no-disconnect path: run the
loop, and if the stream closed, apply the post-loop returns. -/
def consume (sid : String) (deadline : Nat) (events : List (Nat × Event))
    (oracle : List (PromptOutcome × DeliveryOutcome)) : EventStreamResult :=
  match (runEvents sid deadline initialLoopState events oracle).outcome with
  | .returned r => r
  | .ended s => streamEnded s

/-- How the event iterator finished after the listed events: the stream
closed normally, or the transport threw. -/
inductive StreamEnd where
  | closed
  | threw
deriving DecidableEq

/-- One entry of `client.session.messages` history: envelope plus parts. -/
structure HistoryMessage where
  info : MessageInfo
  parts : List MsgPart
deriving DecidableEq

/-- What the single reconnection attempt observes: one of the awaited
calls threw (re-subscribe, `session.get` or `session.messages`), or they
all answered, with `session.get` data present or not and the optional
message history. -/
inductive ReconnectOutcome where
  | threw (msg : String)
  | ok (sessionFound : Bool) (messages : Option (List HistoryMessage))
deriving DecidableEq

/-- The `catch` handler of the consumption loop (opencode-cli.ts:951-991).
First output: the overall result of `processEventStream` (`Except.error`
models a thrown error).  Second output: whether `session.abort` was
attempted.  When the reconnection attempt succeeds but the history does
not end in a complete assistant message, control falls through to the
post-loop code with no session error recorded. -/
def disconnectRecovery (s : LoopState) (ro : ReconnectOutcome) :
    Except String EventStreamResult × Bool :=
  match ro with
  | .threw msg =>
    (Except.error ("Event stream disconnected and reconnect failed: " ++ msg), true)
  | .ok sessionFound messages =>
    let fallThrough : Except String EventStreamResult × Bool :=
      (Except.ok (streamEnded s), false)
    if sessionFound then
      match messages with
      | some msgs =>
        match msgs.getLast? with
        | some last =>
          if last.info.role == "assistant" then
            if isAssistantMessageComplete last.info then
              (Except.ok ⟨some last.info, last.parts, none⟩, false)
            else fallThrough
          else fallThrough
        | none => fallThrough
      | none => fallThrough
    else fallThrough

/-- Full model of `processEventStream` (opencode-cli.ts:810-1014): run the
loop over the delivered events; on an in-loop return, that is the result;
if the listed events are exhausted, the iterator either closes (post-loop
code) or throws (single reconnection attempt).  The boolean records
whether `session.abort` was attempted. -/
def processEventStreamModel (sid : String) (deadline : Nat)
    (events : List (Nat × Event)) (oracle : List (PromptOutcome × DeliveryOutcome))
    (endKind : StreamEnd) (ro : ReconnectOutcome) :
    Except String EventStreamResult × Bool :=
  match (runEvents sid deadline initialLoopState events oracle).outcome with
  | .returned r => (Except.ok r, false)
  | .ended s =>
    match endKind with
    | .closed => (Except.ok (streamEnded s), false)
    | .threw => disconnectRecovery s ro

/-- A parsed model identifier (`ModelConfig`, opencode.ts:24-27).  Model
strings are embedded as JS strings, i.e. lists of characters. -/
structure ModelConfig where
  providerID : List Char
  modelID : List Char
deriving DecidableEq

/-- JS `String.prototype.indexOf` for a single character: position of its
first occurrence (`none` models `-1`). -/
def jsIndexOf : List Char → Char → Option Nat
  | [], _ => none
  | c :: cs, target => if c = target then some 0 else (jsIndexOf cs target).map (· + 1)

/-- The error message thrown by `parseModelString` (apostrophes elided). -/
def invalidModelMessage : String :=
  "Invalid model string: expected provider/model with non-empty parts"

/-- `parseModelString` (opencode.ts:33-56): trim the input; throw when the
trimmed input is empty; split at the first slash into a trimmed provider
and a trimmed model, throwing when either is empty; with no slash, the
provider defaults to `opencode`.  `take i` and `drop (i+1)` are
`substring(0, i)` and `substring(i+1)`; `Except.error` models `throw`. -/
def parseModelString (modelStr : List Char) : Except String ModelConfig :=
  let trimmedInput := jsTrim modelStr
  if trimmedInput = [] then Except.error invalidModelMessage
  else
    match jsIndexOf trimmedInput '/' with
    | some slashIndex =>
      let providerID := jsTrim (trimmedInput.take slashIndex)
      let modelID := jsTrim (trimmedInput.drop (slashIndex + 1))
      if providerID = [] ∨ modelID = [] then Except.error invalidModelMessage
      else Except.ok ⟨providerID, modelID⟩
    | none => Except.ok ⟨"opencode".data, trimmedInput⟩

/-- `formatModelID` (opencode.ts:58-60). -/
def formatModelID (model : ModelConfig) : List Char :=
  model.providerID ++ '/' :: model.modelID

/-- The captured state of the `close` closure of `runOpencodePrompt`
(opencode-cli.ts:1051-1062): the `closed` flag, plus a ghost count of
`session.delete` requests sent to the backend. -/
structure CloseState where
  closed : Bool
  deleteCalls : Nat
deriving DecidableEq

/-- One invocation of `close`: return immediately when already closed,
otherwise set the flag, send the deletion request and swallow any error
it raises (`// Ignore cleanup errors`).  The second output is the error
propagated to the caller — always `none`. -/
def closeCall (st : CloseState) (deleteFails : Bool) : CloseState × Option String :=
  if st.closed then (st, none)
  else
    let st' : CloseState := ⟨true, st.deleteCalls + 1⟩
    match (if deleteFails then Except.error "delete failed" else Except.ok ()) with
    | Except.ok _ => (st', none)
    | Except.error _ => (st', none)

/-- A sequence of `close` invocations; each list entry tells whether the
backend deletion would fail at that point.  Returns the final state and
the errors each call propagated. -/
def closeMany : CloseState → List Bool → CloseState × List (Option String)
  | st, [] => (st, [])
  | st, f :: fs =>
    let r := closeCall st f
    let rec' := closeMany r.1 fs
    (rec'.1, r.2 :: rec'.2)

/-- `DeslopFlowResult` (`"continue" | "abort" | "updated"`). -/
inductive DeslopFlowResult where
  | cont
  | abort
  | updated
deriving DecidableEq

/-- `git restore --source <ref> --worktree -- .` -/
def worktreeRestoreCmd (ref : String) : String :=
  "restore --source " ++ ref ++ " --worktree -- ."

/-- `git restore --source <ref>^2 --staged -- .` (the snapshot's second
parent holds the staged state). -/
def stagedParentRestoreCmd (ref : String) : String :=
  "restore --source " ++ ref ++ "^2 --staged -- ."

/-- `git restore --source <ref> --staged -- .` (fallback when the snapshot
has no second parent). -/
def stagedRestoreCmd (ref : String) : String :=
  "restore --source " ++ ref ++ " --staged -- ."

/-- One `git(...)` call: the environment `fails` says which commands
throw, and with what message. -/
def runGit (fails : String → Option String) (cmd : String) : Except String Unit :=
  match fails cmd with
  | none => Except.ok ()
  | some e => Except.error e

/-- `restoreGitSnapshot` (deslop flow, part_004:246-253): restore the
working tree from the snapshot; then restore the index from the
snapshot's second parent, falling back to the snapshot itself when that
command throws; any unrecovered failure propagates.  On success the
returned trace lists the git commands that ran successfully. -/
def restoreGitSnapshot (fails : String → Option String) (snapshotRef : String) :
    Except String (List String) :=
  match runGit fails (worktreeRestoreCmd snapshotRef) with
  | Except.error e => Except.error e
  | Except.ok _ =>
    match runGit fails (stagedParentRestoreCmd snapshotRef) with
    | Except.ok _ =>
      Except.ok [worktreeRestoreCmd snapshotRef, stagedParentRestoreCmd snapshotRef]
    | Except.error _ =>
      match runGit fails (stagedRestoreCmd snapshotRef) with
      | Except.ok _ =>
        Except.ok [worktreeRestoreCmd snapshotRef, stagedRestoreCmd snapshotRef]
      | Except.error e => Except.error e

/-- The reject branch of `maybeDeslopStagedChanges` (part_004:374-380)
together with the surrounding `catch` (part_004:384-392): on reject, the
snapshot is restored; when the restore throws, the outer handler reports
the error via `p.cancel(error.message)` and returns `"abort"`.  Second
output: the error message displayed to the user, `none` when nothing
went wrong. -/
def rejectDeslop (fails : String → Option String) (snapshotRef : Option String) :
    DeslopFlowResult × Option String :=
  match snapshotRef with
  | none => (DeslopFlowResult.cont, none)
  | some ref =>
    match restoreGitSnapshot fails ref with
    | Except.ok _ => (DeslopFlowResult.cont, none)
    | Except.error e => (DeslopFlowResult.abort, some e)

/-- Spec-side: the part ids in order of first observation (every later
occurrence of an id already listed is dropped). -/
def firstDedup : List String → List String
  | [] => []
  | x :: xs => x :: (firstDedup xs).filter (fun y => y ≠ x)

/-- Spec-side: the last value received for a part id. -/
def lastValueFor (parts : List MsgPart) (i : String) : Option MsgPart :=
  parts.reverse.find? (fun p => p.id == i)

/-- Spec-side rendering of the parts-map contract: one entry per part id,
in the order the ids were first observed, each carrying the last value
received for that id. -/
def specPartsMap (parts : List MsgPart) : List MsgPart :=
  (firstDedup (parts.map (fun p => p.id))).filterMap (lastValueFor parts)

/-- A `message.part.updated` event for each part, delivered at time 0. -/
def partEvts (parts : List MsgPart) : List (Nat × Event) :=
  parts.map (fun p => (0, Event.messagePartUpdated p))

/-- C1: For every sequence of events delivered by the feed (all arriving
within the operation deadline), the event stream consumer ignores every
event that does not carry the active session's identifier — directly in
its properties or nested under an `info`/`part` sub-object — so running
the loop over the full sequence equals running it over the subsequence of
events belonging to the active session, even when complete messages or
idle events for other sessions are interleaved. -/
theorem wrongSessionEventsIgnored (sid : String) (deadline : Nat)
    (events : List (Nat × Event)) (s : LoopState)
    (oracle : List (PromptOutcome × DeliveryOutcome))
    (h : ∀ te ∈ events, te.1 ≤ deadline) :
    runEvents sid deadline s events oracle =
      runEvents sid deadline s
        (events.filter (fun te => isEventForSession te.2 sid)) oracle := by
  induction events generalizing s oracle with
  | nil => rfl
  | cons te rest ih =>
    obtain ⟨t, e⟩ := te
    have ht : ¬ t > deadline := by
      have := h (t, e) (List.mem_cons_self _ _)
      omega
    have hrest : ∀ te ∈ rest, te.1 ≤ deadline :=
      fun te hte => h te (List.mem_cons_of_mem _ hte)
    have ih' := fun s oracle => ih s oracle hrest
    by_cases hses : isEventForSession e sid
    · cases e with
      | permissionUpdated perm =>
        simp [runEvents, List.filter_cons, hses, ht, ih']
      | messageUpdated info =>
        by_cases hrole : info.role == "assistant"
        · by_cases hcomp : isAssistantMessageComplete info
          · simp [runEvents, List.filter_cons, hses, ht, hrole, hcomp]
          · simp [runEvents, List.filter_cons, hses, ht, hrole, hcomp, ih']
        · simp [runEvents, List.filter_cons, hses, ht, hrole, ih']
      | messagePartUpdated part =>
        simp [runEvents, List.filter_cons, hses, ht, ih']
      | sessionError sid2 err =>
        simp [runEvents, List.filter_cons, hses, ht]
      | sessionIdle sid2 =>
        cases hs : s.assistantMessage with
        | some m =>
          by_cases hcomp : isAssistantMessageComplete m
          · simp [runEvents, List.filter_cons, hses, ht, hs, hcomp]
          · simp [runEvents, List.filter_cons, hses, ht, hs, hcomp, ih']
        | none =>
          simp [runEvents, List.filter_cons, hses, ht, hs, ih']
      | other =>
        simp [isEventForSession] at hses
    · simp [runEvents, List.filter_cons, hses, ht, ih']

/-- Events used to instantiate the session-filtering theorem: an idle and
a complete assistant message for a foreign session interleaved with the
active session's part and completion. -/
def sampleMixedEvents : List (Nat × Event) :=
  [(0, Event.sessionIdle "s2"),
   (1, Event.messageUpdated ⟨"m9", "s2", "assistant", ⟨some 5⟩⟩),
   (2, Event.messagePartUpdated ⟨"p1", "s1", "m1", "text", "Fix auth bug"⟩),
   (3, Event.messageUpdated ⟨"m1", "s1", "assistant", ⟨some 9⟩⟩)]

/-- Witness for the session-filtering theorem at a concrete event list. -/
theorem wrongSessionEventsIgnored_witness :
    (∀ te ∈ sampleMixedEvents, te.1 ≤ 1000) ∧
      runEvents "s1" 1000 initialLoopState sampleMixedEvents [] =
        runEvents "s1" 1000 initialLoopState
          (sampleMixedEvents.filter (fun te => isEventForSession te.2 "s1")) [] :=
  ⟨by decide, wrongSessionEventsIgnored "s1" 1000 sampleMixedEvents initialLoopState [] (by decide)⟩

/-- C3: an assistant message is complete exactly when it carries a
completion timestamp; a `message.updated` event whose assistant message is
complete makes the consumer return immediately, ignoring all later
events; a `session.idle` event returns success only when a tracked
assistant message exists and is complete, and otherwise the consumer
keeps consuming. -/
theorem completionTerminalSemantics (sid : String) (deadline : Nat)
    (s : LoopState) (t : Nat) (info : MessageInfo) (m : MessageInfo)
    (rest : List (Nat × Event)) (oracle : List (PromptOutcome × DeliveryOutcome)) :
    (isAssistantMessageComplete info = true ↔ info.time.completed ≠ none)
    ∧ (t ≤ deadline → info.sessionID = sid → info.role = "assistant" →
        isAssistantMessageComplete info = true →
        runEvents sid deadline s ((t, Event.messageUpdated info) :: rest) oracle =
          ⟨.returned ⟨some info, s.collectedParts, none⟩, [], []⟩)
    ∧ (t ≤ deadline → s.assistantMessage = some m →
        isAssistantMessageComplete m = true →
        runEvents sid deadline s ((t, Event.sessionIdle sid) :: rest) oracle =
          ⟨.returned ⟨some m, s.collectedParts, none⟩, [], []⟩)
    ∧ (t ≤ deadline →
        (s.assistantMessage = none ∨
          (s.assistantMessage = some m ∧ isAssistantMessageComplete m = false)) →
        runEvents sid deadline s ((t, Event.sessionIdle sid) :: rest) oracle =
          runEvents sid deadline s rest oracle) := by
  refine ⟨?_, ?_, ?_, ?_⟩
  · simp [isAssistantMessageComplete, Option.isSome_iff_ne_none]
  · intro ht hses hrole hcomp
    have ht' : ¬ t > deadline := by omega
    simp [runEvents, isEventForSession, hses, hrole, hcomp, ht']
  · intro ht hs hcomp
    have ht' : ¬ t > deadline := by omega
    simp [runEvents, isEventForSession, hs, hcomp, ht']
  · intro ht hs
    have ht' : ¬ t > deadline := by omega
    rcases hs with hs | ⟨hs, hcomp⟩
    · simp [runEvents, isEventForSession, hs, ht']
    · simp [runEvents, isEventForSession, hs, hcomp, ht']

/-- Witness for the completion-semantics theorem at concrete inputs. -/
theorem completionTerminalSemantics_witness :
    (isAssistantMessageComplete ⟨"m1", "s1", "assistant", ⟨some 7⟩⟩ = true ↔
      (⟨"m1", "s1", "assistant", ⟨some 7⟩⟩ : MessageInfo).time.completed ≠ none)
    ∧ runEvents "s1" 1000 initialLoopState
        ((3, Event.messageUpdated ⟨"m1", "s1", "assistant", ⟨some 7⟩⟩) ::
          [(4, Event.sessionIdle "s1")]) [] =
        ⟨.returned ⟨some ⟨"m1", "s1", "assistant", ⟨some 7⟩⟩, [], none⟩, [], []⟩
    ∧ runEvents "s1" 1000 ⟨[], some ⟨"m1", "s1", "assistant", ⟨some 7⟩⟩⟩
        ((5, Event.sessionIdle "s1") :: []) [] =
        ⟨.returned ⟨some ⟨"m1", "s1", "assistant", ⟨some 7⟩⟩, [], none⟩, [], []⟩
    ∧ runEvents "s1" 1000 ⟨[], some ⟨"m2", "s1", "assistant", ⟨none⟩⟩⟩
        ((5, Event.sessionIdle "s1") :: []) [] =
        runEvents "s1" 1000 ⟨[], some ⟨"m2", "s1", "assistant", ⟨none⟩⟩⟩ [] [] := by
  refine ⟨?_, ?_, ?_, ?_⟩
  · exact (completionTerminalSemantics "s1" 1000 initialLoopState 3
      ⟨"m1", "s1", "assistant", ⟨some 7⟩⟩ ⟨"m1", "s1", "assistant", ⟨some 7⟩⟩ [] []).1
  · exact (completionTerminalSemantics "s1" 1000 initialLoopState 3
      ⟨"m1", "s1", "assistant", ⟨some 7⟩⟩ ⟨"m1", "s1", "assistant", ⟨some 7⟩⟩
      [(4, Event.sessionIdle "s1")] []).2.1 (by decide) rfl rfl (by decide)
  · exact (completionTerminalSemantics "s1" 1000 ⟨[], some ⟨"m1", "s1", "assistant", ⟨some 7⟩⟩⟩ 5
      ⟨"m1", "s1", "assistant", ⟨some 7⟩⟩ ⟨"m1", "s1", "assistant", ⟨some 7⟩⟩ [] []).2.2.1
      (by decide) rfl (by decide)
  · exact (completionTerminalSemantics "s1" 1000 ⟨[], some ⟨"m2", "s1", "assistant", ⟨none⟩⟩⟩ 5
      ⟨"m2", "s1", "assistant", ⟨none⟩⟩ ⟨"m2", "s1", "assistant", ⟨none⟩⟩ [] []).2.2.2
      (by decide) (Or.inr ⟨rfl, by decide⟩)

/-- C6: a permission escalation that times out or is cancelled resolves to
`reject`; the loop then proceeds to the next event with its state intact —
the eventual stream result is that of the remaining events — and a failed
delivery of the decision only logs a warning, never aborting the
operation. -/
theorem permissionNegotiationSemantics (sid : String) (deadline : Nat)
    (s : LoopState) (t : Nat) (perm : Permission) (rest : List (Nat × Event))
    (o : PromptOutcome) (d : DeliveryOutcome)
    (os : List (PromptOutcome × DeliveryOutcome))
    (ht : t ≤ deadline) (hperm : perm.sessionID = sid) :
    (resolvePermissionResponse PromptOutcome.timedOut = PermissionResponse.reject
      ∧ resolvePermissionResponse PromptOutcome.cancelled = PermissionResponse.reject)
    ∧ runEvents sid deadline s ((t, Event.permissionUpdated perm) :: rest) ((o, d) :: os) =
        (let out := runEvents sid deadline s rest os
         match d with
         | DeliveryOutcome.ok =>
             { out with sent := (perm.id, resolvePermissionResponse o) :: out.sent }
         | DeliveryOutcome.failed =>
             { out with warnings := permissionWarning :: out.warnings }) := by
  have ht' : ¬ t > deadline := by omega
  refine ⟨⟨rfl, rfl⟩, ?_⟩
  cases d <;> simp [runEvents, isEventForSession, hperm, ht']

/-- Witness for the permission-negotiation theorem: a timed-out escalation
whose reject decision fails to be delivered, followed by completion. -/
theorem permissionNegotiationSemantics_witness :
    ((3 : Nat) ≤ 1000 ∧ (⟨"perm1", "s1"⟩ : Permission).sessionID = "s1") ∧
      runEvents "s1" 1000 initialLoopState
          ((3, Event.permissionUpdated ⟨"perm1", "s1"⟩) ::
            [(4, Event.messageUpdated ⟨"m1", "s1", "assistant", ⟨some 7⟩⟩)])
          ((PromptOutcome.timedOut, DeliveryOutcome.failed) :: []) =
        (let out := runEvents "s1" 1000 initialLoopState
            [(4, Event.messageUpdated ⟨"m1", "s1", "assistant", ⟨some 7⟩⟩)] []
         match DeliveryOutcome.failed with
         | DeliveryOutcome.ok =>
             { out with sent := ("perm1",
                 resolvePermissionResponse PromptOutcome.timedOut) :: out.sent }
         | DeliveryOutcome.failed =>
             { out with warnings := permissionWarning :: out.warnings }) :=
  ⟨⟨by decide, rfl⟩,
    (permissionNegotiationSemantics "s1" 1000 initialLoopState 3 ⟨"perm1", "s1"⟩
      [(4, Event.messageUpdated ⟨"m1", "s1", "assistant", ⟨some 7⟩⟩)]
      PromptOutcome.timedOut DeliveryOutcome.failed [] (by decide) rfl).2⟩

theorem closeCall_snd_eq_none (st : CloseState) (f : Bool) : (closeCall st f).2 = none := by
  cases hst : st.closed <;> cases f <;> simp [closeCall, hst]

theorem closeCall_of_closed (st : CloseState) (f : Bool) (h : st.closed = true) :
    closeCall st f = (st, none) := by
  simp [closeCall, h]

theorem closeCall_open (n : Nat) (f : Bool) :
    closeCall ⟨false, n⟩ f = (⟨true, n + 1⟩, none) := by
  cases f <;> rfl

theorem closeMany_fst_of_closed :
    ∀ (fs : List Bool) (st : CloseState), st.closed = true → (closeMany st fs).1 = st := by
  intro fs
  induction fs with
  | nil => intro st _; rfl
  | cons f fs ih =>
    intro st h
    simp [closeMany, closeCall_of_closed st f h, ih st h]

theorem closeMany_errors_none :
    ∀ (fs : List Bool) (st : CloseState), ∀ e ∈ (closeMany st fs).2, e = none := by
  intro fs
  induction fs with
  | nil => intro st e he; simp [closeMany] at he
  | cons f fs ih =>
    intro st e he
    simp only [closeMany, List.mem_cons] at he
    rcases he with he | he
    · rw [he]; exact closeCall_snd_eq_none st f
    · exact ih _ e he

/-- C7: the session close of `runOpencodePrompt` is idempotent and never
raises.  Over any sequence of invocations — each entry saying whether the
backend deletion would fail at that point — at most one effective deletion
request reaches the backend (exactly one as soon as close is called at
least once), and every invocation propagates no error to its caller, even
when the deletion fails. -/
theorem closeIdempotentNeverRaises (fs : List Bool) :
    (closeMany ⟨false, 0⟩ fs).1.deleteCalls ≤ 1
    ∧ (fs ≠ [] → (closeMany ⟨false, 0⟩ fs).1.deleteCalls = 1)
    ∧ (∀ e ∈ (closeMany ⟨false, 0⟩ fs).2, e = none) := by
  cases fs with
  | nil => exact ⟨by decide, fun h => absurd rfl h, fun e he => by simp [closeMany] at he⟩
  | cons f fs =>
    have hstep : closeMany ⟨false, 0⟩ (f :: fs) =
        ((closeMany ⟨true, 1⟩ fs).1, none :: (closeMany ⟨true, 1⟩ fs).2) := by
      simp [closeMany, closeCall_open]
    have hfst : (closeMany (⟨true, 1⟩ : CloseState) fs).1 = ⟨true, 1⟩ :=
      closeMany_fst_of_closed fs ⟨true, 1⟩ rfl
    refine ⟨?_, fun _ => ?_, ?_⟩
    · rw [hstep]; simp [hfst]
    · rw [hstep]; simp [hfst]
    · intro e he
      rw [hstep] at he
      simp only [List.mem_cons] at he
      rcases he with he | he
      · exact he
      · exact closeMany_errors_none fs ⟨true, 1⟩ e he

/-- Witness for the close-idempotence theorem: two invocations, the first
with a failing backend deletion. -/
theorem closeIdempotentNeverRaises_witness :
    (closeMany ⟨false, 0⟩ [true, false]).1.deleteCalls ≤ 1
    ∧ (closeMany ⟨false, 0⟩ [true, false]).1.deleteCalls = 1
    ∧ (closeMany ⟨false, 0⟩ [true, false]).2 = [none, none] :=
  ⟨(closeIdempotentNeverRaises [true, false]).1,
    (closeIdempotentNeverRaises [true, false]).2.1 (by decide), by decide⟩

theorem runEvents_outcome_append (sid : String) (deadline : Nat) :
    ∀ (xs : List (Nat × Event)) (s₀ s : LoopState) (ys : List (Nat × Event)),
      (runEvents sid deadline s₀ xs []).outcome = LoopOutcome.ended s →
      (runEvents sid deadline s₀ (xs ++ ys) []).outcome =
        (runEvents sid deadline s ys []).outcome := by
  intro xs
  induction xs with
  | nil =>
    intro s₀ s ys h
    simp [runEvents] at h
    simp [h]
  | cons te rest ih =>
    intro s₀ s ys h
    obtain ⟨t, e⟩ := te
    by_cases ht : t > deadline
    · simp [runEvents, ht] at h
    · by_cases hses : isEventForSession e sid
      · cases e with
        | permissionUpdated perm =>
          simp only [runEvents, if_neg ht, hses, if_pos, List.cons_append] at h ⊢
          exact ih s₀ s ys h
        | messageUpdated info =>
          by_cases hrole : info.role == "assistant"
          · by_cases hcomp : isAssistantMessageComplete info
            · simp [runEvents, ht, hses, hrole, hcomp] at h
            · simp only [runEvents, if_neg ht, hses, if_pos, hrole, hcomp,
                Bool.false_eq_true, if_false, if_true, List.cons_append] at h ⊢
              exact ih _ s ys h
          · simp only [runEvents, if_neg ht, hses, if_pos, hrole,
              Bool.false_eq_true, if_false, List.cons_append] at h ⊢
            exact ih _ s ys h
        | messagePartUpdated part =>
          simp only [runEvents, if_neg ht, hses, if_pos, List.cons_append] at h ⊢
          exact ih _ s ys h
        | sessionError sid2 err =>
          simp [runEvents, ht, hses] at h
        | sessionIdle sid2 =>
          cases hs : s₀.assistantMessage with
          | some m =>
            by_cases hcomp : isAssistantMessageComplete m
            · simp [runEvents, ht, hses, hs, hcomp] at h
            · simp only [runEvents, if_neg ht, hses, if_pos, hs, hcomp,
                Bool.false_eq_true, if_false, List.cons_append] at h ⊢
              exact ih _ s ys h
          | none =>
            simp only [runEvents, if_neg ht, hses, if_pos, hs, List.cons_append] at h ⊢
            exact ih _ s ys h
        | other =>
          simp [isEventForSession] at hses
      · simp only [runEvents, if_neg ht, hses, Bool.false_eq_true, if_false,
          List.cons_append] at h ⊢
        exact ih _ s ys h

/-- C5 counterexample: a stream that delivers no events and then closes
reaches no terminal state within the deadline, yet the consumer does not
abort with a timeout error — it returns the stream-ended error instead,
so the timeout does not fire independently of event arrival. -/
theorem timeoutIndependence_counterexample :
    consume "s1" OPERATION_TIMEOUT_MS [] [] =
      ⟨none, [], some "Event stream ended without completing"⟩
    ∧ (consume "s1" OPERATION_TIMEOUT_MS [] []).error ≠ some "Operation timed out" := by
  constructor
  · rfl
  · decide

/-- C5 as amended: the operation deadline is only consulted when an event
arrives — whenever the loop has consumed a prefix of events without
reaching a terminal state and any further event (for whatever session)
arrives after the deadline, the consumer aborts with the timeout error,
carrying the state accumulated so far. -/
theorem timeoutFiresOnLateEvent (sid : String) (deadline : Nat)
    (pre : List (Nat × Event)) (s : LoopState) (t : Nat) (e : Event)
    (rest : List (Nat × Event))
    (hpre : (runEvents sid deadline initialLoopState pre []).outcome = LoopOutcome.ended s)
    (ht : t > deadline) :
    consume sid deadline (pre ++ (t, e) :: rest) [] =
      ⟨s.assistantMessage, s.collectedParts, some "Operation timed out"⟩ := by
  unfold consume
  rw [runEvents_outcome_append sid deadline pre initialLoopState s ((t, e) :: rest) hpre]
  simp [runEvents, ht]

/-- Witness for the amended timeout theorem: one in-deadline part event,
then an idle event arriving past the deadline. -/
theorem timeoutFiresOnLateEvent_witness :
    ((runEvents "s1" 1000 initialLoopState
        [(5, Event.messagePartUpdated ⟨"p1", "s1", "m1", "text", "hi"⟩)] []).outcome =
      LoopOutcome.ended ⟨[⟨"p1", "s1", "m1", "text", "hi"⟩], none⟩)
    ∧ (1001 > 1000)
    ∧ consume "s1" 1000
        ([(5, Event.messagePartUpdated ⟨"p1", "s1", "m1", "text", "hi"⟩)] ++
          (1001, Event.sessionIdle "s1") :: []) [] =
        ⟨none, [⟨"p1", "s1", "m1", "text", "hi"⟩], some "Operation timed out"⟩ :=
  ⟨by decide, by decide,
    timeoutFiresOnLateEvent "s1" 1000
      [(5, Event.messagePartUpdated ⟨"p1", "s1", "m1", "text", "hi"⟩)]
      ⟨[⟨"p1", "s1", "m1", "text", "hi"⟩], none⟩ 1001 (Event.sessionIdle "s1") []
      (by decide) (by decide)⟩

/-- C4 counterexample: the stream disconnects before any terminal state,
the single reconnection attempt succeeds, and the session history ends in
an assistant message that is not complete.  The claim requires a
best-effort abort and a "stream disconnected, reconnect failed" error;
the code instead falls through without aborting and returns the ordinary
stream-ended error. -/
theorem reconnectFailure_counterexample :
    processEventStreamModel "s1" 1000 [] [] StreamEnd.threw
        (ReconnectOutcome.ok true (some [⟨⟨"m1", "s1", "assistant", ⟨none⟩⟩, []⟩])) =
      (Except.ok ⟨none, [], some "Event stream ended without completing"⟩, false)
    ∧ (processEventStreamModel "s1" 1000 [] [] StreamEnd.threw
        (ReconnectOutcome.ok true (some [⟨⟨"m1", "s1", "assistant", ⟨none⟩⟩, []⟩]))).2
        = false := by
  constructor <;> rfl

/-- C4 as amended: on a mid-stream transport error the consumer makes a
single reconnection attempt; when the re-subscribe and history query
succeed and the last stored message is a complete assistant message, that
message's text is returned without error; when the reconnection attempt
itself throws, the session is aborted best-effort and the
"stream disconnected, reconnect failed" error is raised; but when the
reconnection succeeds and the history does not end in a complete
assistant message, no abort happens and no disconnect error is raised —
the consumer falls through to the ordinary post-loop returns. -/
theorem reconnectSemantics (sid : String) (deadline : Nat)
    (events : List (Nat × Event)) (oracle : List (PromptOutcome × DeliveryOutcome))
    (s : LoopState) (msgs : List HistoryMessage) (last : HistoryMessage) (m : String)
    (h : (runEvents sid deadline initialLoopState events oracle).outcome =
      LoopOutcome.ended s) :
    (msgs.getLast? = some last → last.info.role = "assistant" →
      isAssistantMessageComplete last.info = true →
      processEventStreamModel sid deadline events oracle StreamEnd.threw
          (ReconnectOutcome.ok true (some msgs)) =
        (Except.ok ⟨some last.info, last.parts, none⟩, false))
    ∧ processEventStreamModel sid deadline events oracle StreamEnd.threw
          (ReconnectOutcome.threw m) =
        (Except.error ("Event stream disconnected and reconnect failed: " ++ m), true)
    ∧ (msgs.getLast? = some last →
        ¬(last.info.role = "assistant" ∧ isAssistantMessageComplete last.info = true) →
        processEventStreamModel sid deadline events oracle StreamEnd.threw
            (ReconnectOutcome.ok true (some msgs)) =
          (Except.ok (streamEnded s), false)) := by
  refine ⟨?_, ?_, ?_⟩
  · intro hlast hrole hcomp
    unfold processEventStreamModel
    rw [h]
    simp [disconnectRecovery, hlast, hrole, hcomp]
  · unfold processEventStreamModel
    rw [h]
    simp [disconnectRecovery]
  · intro hlast hnot
    unfold processEventStreamModel
    rw [h]
    by_cases hrole : last.info.role = "assistant"
    · have hcomp : isAssistantMessageComplete last.info = false := by
        rcases Bool.eq_false_or_eq_true (isAssistantMessageComplete last.info) with hc | hc
        · exact absurd ⟨hrole, hc⟩ hnot
        · exact hc
      simp [disconnectRecovery, hlast, hrole, hcomp]
    · have hrole' : (last.info.role == "assistant") = false := by
        simp [hrole]
      simp [disconnectRecovery, hlast, hrole']

/-- Witness for the reconnection theorem: an empty stream that
disconnects, with a history ending in a complete assistant message. -/
theorem reconnectSemantics_witness :
    ((runEvents "s1" 1000 initialLoopState [] []).outcome =
      LoopOutcome.ended initialLoopState)
    ∧ processEventStreamModel "s1" 1000 [] [] StreamEnd.threw
        (ReconnectOutcome.ok true
          (some [⟨⟨"m1", "s1", "assistant", ⟨some 9⟩⟩,
            [⟨"p1", "s1", "m1", "text", "done"⟩]⟩])) =
      (Except.ok ⟨some ⟨"m1", "s1", "assistant", ⟨some 9⟩⟩,
        [⟨"p1", "s1", "m1", "text", "done"⟩], none⟩, false)
    ∧ processEventStreamModel "s1" 1000 [] [] StreamEnd.threw
        (ReconnectOutcome.threw "socket reset") =
      (Except.error ("Event stream disconnected and reconnect failed: " ++ "socket reset"),
        true) :=
  ⟨by decide,
    (reconnectSemantics "s1" 1000 [] [] initialLoopState
      [⟨⟨"m1", "s1", "assistant", ⟨some 9⟩⟩, [⟨"p1", "s1", "m1", "text", "done"⟩]⟩]
      ⟨⟨"m1", "s1", "assistant", ⟨some 9⟩⟩, [⟨"p1", "s1", "m1", "text", "done"⟩]⟩
      "socket reset" (by decide)).1 (by decide) rfl (by decide),
    (reconnectSemantics "s1" 1000 [] [] initialLoopState
      [⟨⟨"m1", "s1", "assistant", ⟨some 9⟩⟩, [⟨"p1", "s1", "m1", "text", "done"⟩]⟩]
      ⟨⟨"m1", "s1", "assistant", ⟨some 9⟩⟩, [⟨"p1", "s1", "m1", "text", "done"⟩]⟩
      "socket reset" (by decide)).2.1⟩

theorem mem_firstDedup : ∀ (ids : List String) (i : String), i ∈ firstDedup ids ↔ i ∈ ids := by
  intro ids
  induction ids with
  | nil => intro i; simp [firstDedup]
  | cons x xs ih =>
    intro i
    by_cases hx : i = x
    · simp [firstDedup, hx]
    · simp [firstDedup, List.mem_filter, hx, ih]

theorem firstDedup_append_single :
    ∀ (ids : List String) (i : String),
      firstDedup (ids ++ [i]) =
        if i ∈ ids then firstDedup ids else firstDedup ids ++ [i] := by
  intro ids
  induction ids with
  | nil => intro i; simp [firstDedup]
  | cons x xs ih =>
    intro i
    rw [List.cons_append, firstDedup, ih i, firstDedup]
    by_cases hxs : i ∈ xs
    · rw [if_pos hxs, if_pos (by simp [hxs])]
    · rw [if_neg hxs]
      by_cases hx : i = x
      · rw [if_pos (by simp [hx]), List.filter_append]
        simp [hx]
      · rw [if_neg (by simp [hx, hxs]), List.filter_append]
        simp [hx]

theorem lastValueFor_append_single (l : List MsgPart) (x : MsgPart) (i : String) :
    lastValueFor (l ++ [x]) i = if x.id = i then some x else lastValueFor l i := by
  unfold lastValueFor
  rw [List.reverse_append]
  by_cases hx : x.id = i
  · simp [List.find?, hx]
  · have hb : (x.id == i) = false := by simp [hx]
    simp [List.find?, hx, hb]

theorem lastValueFor_of_mem_map (parts : List MsgPart) (i : String)
    (h : i ∈ parts.map (fun p => p.id)) :
    ∃ p, lastValueFor parts i = some p ∧ p.id = i ∧ p ∈ parts := by
  obtain ⟨p0, hp0, hid0⟩ := List.mem_map.mp h
  have hex : ∃ a ∈ parts.reverse, (fun p => p.id == i) a := by
    exact ⟨p0, List.mem_reverse.mpr hp0, by simp [hid0]⟩
  have hsome : (parts.reverse.find? (fun p => p.id == i)).isSome :=
    List.find?_isSome.mpr hex
  obtain ⟨p, hp⟩ := Option.isSome_iff_exists.mp hsome
  refine ⟨p, hp, ?_, ?_⟩
  · have := List.find?_some hp
    simpa using this
  · exact List.mem_reverse.mp (List.mem_of_find?_eq_some hp)

theorem filterMap_lastValue_ids (parts : List MsgPart) :
    ∀ (l : List String), (∀ i ∈ l, i ∈ parts.map (fun p => p.id)) →
      (l.filterMap (lastValueFor parts)).map (fun p => p.id) = l := by
  intro l
  induction l with
  | nil => intro _; rfl
  | cons i l ih =>
    intro h
    obtain ⟨p, hp, hpid, _⟩ :=
      lastValueFor_of_mem_map parts i (h i (List.mem_cons_self _ _))
    rw [List.filterMap_cons, hp]
    simp only [List.map_cons, hpid]
    rw [ih (fun j hj => h j (List.mem_cons_of_mem _ hj))]

theorem specPartsMap_map_id (parts : List MsgPart) :
    (specPartsMap parts).map (fun p => p.id) = firstDedup (parts.map (fun p => p.id)) := by
  unfold specPartsMap
  exact filterMap_lastValue_ids parts _
    (fun i hi => (mem_firstDedup _ i).mp hi)

theorem foldl_upsert_eq_specPartsMap :
    ∀ (parts : List MsgPart), parts.foldl upsertPart [] = specPartsMap parts := by
  intro parts
  induction parts using List.reverseRecOn with
  | nil => simp [specPartsMap, firstDedup]
  | append_singleton l x ih =>
    rw [List.foldl_append, List.foldl_cons, List.foldl_nil, ih]
    by_cases hx : x.id ∈ l.map (fun p => p.id)
    · -- overwrite in place
      have hany : (specPartsMap l).any (fun q => q.id == x.id) = true := by
        rw [List.any_eq_true]
        have hx' : x.id ∈ (specPartsMap l).map (fun p => p.id) := by
          rw [specPartsMap_map_id]; exact (mem_firstDedup _ _).mpr hx
        obtain ⟨q, hq, hqid⟩ := List.mem_map.mp hx'
        exact ⟨q, hq, by simp [hqid]⟩
      rw [upsertPart, if_pos hany]
      unfold specPartsMap
      rw [List.map_append, List.map_singleton, firstDedup_append_single, if_pos hx]
      rw [List.map_filterMap]
      apply List.filterMap_congr
      intro i hi
      have hi' : i ∈ l.map (fun p => p.id) := (mem_firstDedup _ i).mp hi
      obtain ⟨p, hp, hpid, _⟩ := lastValueFor_of_mem_map l i hi'
      rw [lastValueFor_append_single, hp]
      by_cases hix : x.id = i
      · simp [Option.map, hix, hpid]
      · have : (p.id == x.id) = false := by
          simp [hpid]; exact fun h => hix h.symm
        simp [Option.map, hix, this]
    · -- append
      have hany : (specPartsMap l).any (fun q => q.id == x.id) = false := by
        rw [Bool.eq_false_iff]
        intro hc
        rw [List.any_eq_true] at hc
        obtain ⟨q, hq, hqid⟩ := hc
        have : q.id = x.id := by simpa using hqid
        have hx' : x.id ∈ (specPartsMap l).map (fun p => p.id) :=
          List.mem_map.mpr ⟨q, hq, this⟩
        rw [specPartsMap_map_id] at hx'
        exact hx ((mem_firstDedup _ _).mp hx')
      rw [upsertPart, hany]
      simp only [Bool.false_eq_true, if_false]
      unfold specPartsMap
      rw [List.map_append, List.map_singleton, firstDedup_append_single, if_neg hx]
      rw [List.filterMap_append]
      congr 1
      · apply List.filterMap_congr
        intro i hi
        have hi' : i ∈ l.map (fun p => p.id) := (mem_firstDedup _ i).mp hi
        have hix : x.id ≠ i := fun h => hx (h ▸ hi')
        rw [lastValueFor_append_single, if_neg hix]
      · rw [List.filterMap_cons, lastValueFor_append_single, if_pos rfl]
        rfl

theorem runEvents_partEvts (sid : String) (deadline : Nat) :
    ∀ (parts : List MsgPart) (s : LoopState) (rest : List (Nat × Event))
      (oracle : List (PromptOutcome × DeliveryOutcome)),
      (∀ p ∈ parts, p.sessionID = sid) →
      runEvents sid deadline s (partEvts parts ++ rest) oracle =
        runEvents sid deadline
          ⟨parts.foldl upsertPart s.collectedParts, s.assistantMessage⟩ rest oracle := by
  intro parts
  induction parts with
  | nil => intro s rest oracle _; simp [partEvts]
  | cons p parts ih =>
    intro s rest oracle h
    have hp : p.sessionID = sid := h p (List.mem_cons_self _ _)
    have hdl : ¬ (0 : Nat) > deadline := by omega
    simp only [partEvts, List.map_cons, List.cons_append]
    rw [runEvents]
    simp only [if_neg hdl, isEventForSession, hp, beq_self_eq_true, if_pos]
    rw [show List.map (fun p => ((0 : Nat), Event.messagePartUpdated p)) parts =
      partEvts parts from rfl]
    rw [ih _ rest oracle (fun q hq => h q (List.mem_cons_of_mem _ hq))]
    rfl

/-- C2 counterexample: a single textual part whose text carries leading
and trailing whitespace.  The returned text is the *trimmed*
concatenation of the textual parts, not the concatenation itself, so the
claim as stated fails. -/
theorem partsTextTrimmed_counterexample :
    returnedText (consume "s1" 1000
        [(0, Event.messagePartUpdated ⟨"p1", "s1", "m1", "text", " a "⟩),
         (1, Event.messageUpdated ⟨"m1", "s1", "assistant", ⟨some 2⟩⟩)] []) = "a"
    ∧ String.join (((consume "s1" 1000
        [(0, Event.messagePartUpdated ⟨"p1", "s1", "m1", "text", " a "⟩),
         (1, Event.messageUpdated ⟨"m1", "s1", "assistant", ⟨some 2⟩⟩)] []).parts.filter
          (fun p => p.type == "text")).map (fun p => p.text)) = " a "
    ∧ ("a" : String) ≠ " a " := by
  refine ⟨rfl, rfl, by decide⟩

/-- C2 as amended: for every sequence of `message.part.updated` events for
the active session followed by a completing assistant message, repeated
events sharing a part id overwrite the stored part rather than
duplicating it — the returned parts list is exactly the spec-side map
holding, for each part id in order of first observation, the
last-received value — and the final returned text is the
whitespace-trimmed concatenation of the text of only the textual parts of
that map. -/
theorem partsMapSemantics (sid : String) (deadline : Nat) (parts : List MsgPart)
    (info : MessageInfo) (oracle : List (PromptOutcome × DeliveryOutcome))
    (hparts : ∀ p ∈ parts, p.sessionID = sid)
    (hinfo : info.sessionID = sid) (hrole : info.role = "assistant")
    (hcomp : isAssistantMessageComplete info = true) :
    consume sid deadline (partEvts parts ++ [(0, Event.messageUpdated info)]) oracle =
      ⟨some info, specPartsMap parts, none⟩
    ∧ returnedText ⟨some info, specPartsMap parts, none⟩ =
        trimString (String.join (((specPartsMap parts).filter
          (fun p => p.type == "text")).map (fun p => p.text))) := by
  constructor
  · unfold consume
    rw [runEvents_partEvts sid deadline parts initialLoopState _ oracle hparts]
    have hdl : ¬ (0 : Nat) > deadline := by omega
    simp [runEvents, isEventForSession, hinfo, hrole, hcomp, hdl, initialLoopState,
      foldl_upsert_eq_specPartsMap]
  · rfl

/-- Witness for the parts-map theorem: a repeated part id whose second
value wins, in first-observed order. -/
theorem partsMapSemantics_witness :
    consume "s1" 1000 (partEvts
        [⟨"p1", "s1", "m1", "text", "Fix"⟩,
         ⟨"p2", "s1", "m1", "text", " bug"⟩,
         ⟨"p1", "s1", "m1", "text", "Fix auth"⟩] ++
      [(0, Event.messageUpdated ⟨"m1", "s1", "assistant", ⟨some 4⟩⟩)]) [] =
      ⟨some ⟨"m1", "s1", "assistant", ⟨some 4⟩⟩,
        specPartsMap
          [⟨"p1", "s1", "m1", "text", "Fix"⟩,
           ⟨"p2", "s1", "m1", "text", " bug"⟩,
           ⟨"p1", "s1", "m1", "text", "Fix auth"⟩], none⟩
    ∧ specPartsMap
          [⟨"p1", "s1", "m1", "text", "Fix"⟩,
           ⟨"p2", "s1", "m1", "text", " bug"⟩,
           ⟨"p1", "s1", "m1", "text", "Fix auth"⟩] =
        [⟨"p1", "s1", "m1", "text", "Fix auth"⟩, ⟨"p2", "s1", "m1", "text", " bug"⟩]
    ∧ returnedText ⟨some ⟨"m1", "s1", "assistant", ⟨some 4⟩⟩,
        specPartsMap
          [⟨"p1", "s1", "m1", "text", "Fix"⟩,
           ⟨"p2", "s1", "m1", "text", " bug"⟩,
           ⟨"p1", "s1", "m1", "text", "Fix auth"⟩], none⟩ = "Fix auth bug" :=
  ⟨(partsMapSemantics "s1" 1000
      [⟨"p1", "s1", "m1", "text", "Fix"⟩,
       ⟨"p2", "s1", "m1", "text", " bug"⟩,
       ⟨"p1", "s1", "m1", "text", "Fix auth"⟩]
      ⟨"m1", "s1", "assistant", ⟨some 4⟩⟩ [] (by decide) rfl rfl (by decide)).1,
    by decide, by decide⟩

theorem lastValueFor_of_mem_specPartsMap (parts : List MsgPart) (p : MsgPart)
    (hp : p ∈ specPartsMap parts) : lastValueFor parts p.id = some p := by
  unfold specPartsMap at hp
  obtain ⟨i, _, hfind⟩ := List.mem_filterMap.mp hp
  have hpi : p.id = i := by
    have := List.find?_some hfind
    simpa using this
  rw [hpi]
  exact hfind

theorem mem_right_of_mem_specPartsMap_append (A B : List MsgPart)
    (hcover : ∀ p ∈ A, p.id ∈ B.map (fun q => q.id)) :
    ∀ p ∈ specPartsMap (A ++ B), p ∈ B := by
  intro p hp
  have hlast : lastValueFor (A ++ B) p.id = some p :=
    lastValueFor_of_mem_specPartsMap _ p hp
  have hpmem : p ∈ A ++ B := by
    have := List.mem_of_find?_eq_some hlast
    exact List.mem_reverse.mp this
  have hidB : p.id ∈ B.map (fun q => q.id) := by
    rcases List.mem_append.mp hpmem with h | h
    · exact hcover p h
    · exact List.mem_map.mpr ⟨p, h, rfl⟩
  obtain ⟨b, hbfind, _, hbmem⟩ := lastValueFor_of_mem_map B p.id hidB
  have hAB : lastValueFor (A ++ B) p.id = some b := by
    unfold lastValueFor at hbfind ⊢
    rw [List.reverse_append, List.find?_append, hbfind]
    rfl
  rw [hAB] at hlast
  injection hlast with hbp
  rw [← hbp]
  exact hbmem

/-- C8 counterexample: the assistant message is revised before
completion, the two revisions using distinct part ids (the parts even
name distinct message ids).  Both parts survive into the returned result,
so the returned text interleaves a superseded revision's text with the
final snapshot's. -/
theorem revisionInterleaving_counterexample :
    consume "s1" 1000
        [(0, Event.messagePartUpdated ⟨"p1", "s1", "m1", "text", "old"⟩),
         (1, Event.messageUpdated ⟨"m1", "s1", "assistant", ⟨none⟩⟩),
         (2, Event.messagePartUpdated ⟨"p2", "s1", "m2", "text", "new"⟩),
         (3, Event.messageUpdated ⟨"m2", "s1", "assistant", ⟨some 9⟩⟩)] [] =
      ⟨some ⟨"m2", "s1", "assistant", ⟨some 9⟩⟩,
        [⟨"p1", "s1", "m1", "text", "old"⟩, ⟨"p2", "s1", "m2", "text", "new"⟩], none⟩
    ∧ returnedText (consume "s1" 1000
        [(0, Event.messagePartUpdated ⟨"p1", "s1", "m1", "text", "old"⟩),
         (1, Event.messageUpdated ⟨"m1", "s1", "assistant", ⟨none⟩⟩),
         (2, Event.messagePartUpdated ⟨"p2", "s1", "m2", "text", "new"⟩),
         (3, Event.messageUpdated ⟨"m2", "s1", "assistant", ⟨some 9⟩⟩)] []) = "oldnew"
    ∧ ((consume "s1" 1000
        [(0, Event.messagePartUpdated ⟨"p1", "s1", "m1", "text", "old"⟩),
         (1, Event.messageUpdated ⟨"m1", "s1", "assistant", ⟨none⟩⟩),
         (2, Event.messagePartUpdated ⟨"p2", "s1", "m2", "text", "new"⟩),
         (3, Event.messageUpdated ⟨"m2", "s1", "assistant", ⟨some 9⟩⟩)] []).parts.map
          (fun p => p.messageID)) = ["m1", "m2"] := by
  refine ⟨rfl, rfl, rfl⟩

/-- C8 as amended: parts are deduplicated by part id only.  When the
final revision's part events cover every part id observed under earlier
revisions, the returned parts — the last value received for each id, in
first-observed order — all belong to the final revision's parts, so no
superseded text leaks; an id observed only under a superseded revision
would instead survive (see the counterexample). -/
theorem partsKeyedByIdOnly (sid : String) (deadline : Nat) (A B : List MsgPart)
    (info : MessageInfo) (oracle : List (PromptOutcome × DeliveryOutcome))
    (hA : ∀ p ∈ A, p.sessionID = sid) (hB : ∀ p ∈ B, p.sessionID = sid)
    (hcover : ∀ p ∈ A, p.id ∈ B.map (fun q => q.id))
    (hinfo : info.sessionID = sid) (hrole : info.role = "assistant")
    (hcomp : isAssistantMessageComplete info = true) :
    consume sid deadline (partEvts A ++ partEvts B ++ [(0, Event.messageUpdated info)])
        oracle =
      ⟨some info, specPartsMap (A ++ B), none⟩
    ∧ ∀ p ∈ specPartsMap (A ++ B), p ∈ B := by
  constructor
  · have hAB : ∀ p ∈ A ++ B, p.sessionID = sid := by
      intro p hp
      rcases List.mem_append.mp hp with h | h
      · exact hA p h
      · exact hB p h
    have hsplit : partEvts A ++ partEvts B = partEvts (A ++ B) := by
      unfold partEvts
      rw [List.map_append]
    rw [hsplit]
    exact (partsMapSemantics sid deadline (A ++ B) info oracle hAB hinfo hrole hcomp).1
  · exact mem_right_of_mem_specPartsMap_append A B hcover

/-- Witness for the dedup-by-id theorem: revision one emits parts `p1`,
`p2`; the final revision re-sends both ids with its own values. -/
theorem partsKeyedByIdOnly_witness :
    consume "s1" 1000 (partEvts
        [⟨"p1", "s1", "m1", "text", "dra"⟩, ⟨"p2", "s1", "m1", "text", "ft"⟩] ++
      partEvts
        [⟨"p1", "s1", "m1", "text", "fin"⟩, ⟨"p2", "s1", "m1", "text", "al"⟩] ++
      [(0, Event.messageUpdated ⟨"m1", "s1", "assistant", ⟨some 4⟩⟩)]) [] =
      ⟨some ⟨"m1", "s1", "assistant", ⟨some 4⟩⟩,
        specPartsMap
          ([⟨"p1", "s1", "m1", "text", "dra"⟩, ⟨"p2", "s1", "m1", "text", "ft"⟩] ++
           [⟨"p1", "s1", "m1", "text", "fin"⟩, ⟨"p2", "s1", "m1", "text", "al"⟩]), none⟩
    ∧ specPartsMap
        ([⟨"p1", "s1", "m1", "text", "dra"⟩, ⟨"p2", "s1", "m1", "text", "ft"⟩] ++
         [⟨"p1", "s1", "m1", "text", "fin"⟩, ⟨"p2", "s1", "m1", "text", "al"⟩]) =
        [⟨"p1", "s1", "m1", "text", "fin"⟩, ⟨"p2", "s1", "m1", "text", "al"⟩] :=
  ⟨(partsKeyedByIdOnly "s1" 1000
      [⟨"p1", "s1", "m1", "text", "dra"⟩, ⟨"p2", "s1", "m1", "text", "ft"⟩]
      [⟨"p1", "s1", "m1", "text", "fin"⟩, ⟨"p2", "s1", "m1", "text", "al"⟩]
      ⟨"m1", "s1", "assistant", ⟨some 4⟩⟩ []
      (by decide) (by decide) (by decide) rfl rfl (by decide)).1,
    by decide⟩

/-- C9: on reject, the deslop flow restores the working tree from the
snapshot and the index from the snapshot's second parent, falling back to
the snapshot itself when the second-parent restore throws; any failure of
the restore propagates out of `restoreGitSnapshot` and is surfaced by the
reject path as an abort carrying the error message, never silently
swallowed. -/
theorem deslopRestoreSemantics (fails : String → Option String) (ref : String)
    (e e1 e2 : String) (tr : List String) :
    (fails (worktreeRestoreCmd ref) = none →
      fails (stagedParentRestoreCmd ref) = none →
      restoreGitSnapshot fails ref =
        Except.ok [worktreeRestoreCmd ref, stagedParentRestoreCmd ref])
    ∧ (fails (worktreeRestoreCmd ref) = none →
        fails (stagedParentRestoreCmd ref) = some e1 →
        fails (stagedRestoreCmd ref) = none →
        restoreGitSnapshot fails ref =
          Except.ok [worktreeRestoreCmd ref, stagedRestoreCmd ref])
    ∧ (fails (worktreeRestoreCmd ref) = some e →
        restoreGitSnapshot fails ref = Except.error e)
    ∧ (fails (worktreeRestoreCmd ref) = none →
        fails (stagedParentRestoreCmd ref) = some e1 →
        fails (stagedRestoreCmd ref) = some e2 →
        restoreGitSnapshot fails ref = Except.error e2)
    ∧ (restoreGitSnapshot fails ref = Except.error e →
        rejectDeslop fails (some ref) = (DeslopFlowResult.abort, some e))
    ∧ (restoreGitSnapshot fails ref = Except.ok tr →
        rejectDeslop fails (some ref) = (DeslopFlowResult.cont, none)) := by
  refine ⟨?_, ?_, ?_, ?_, ?_, ?_⟩
  · intro h1 h2
    simp [restoreGitSnapshot, runGit, h1, h2]
  · intro h1 h2 h3
    simp [restoreGitSnapshot, runGit, h1, h2, h3]
  · intro h1
    simp [restoreGitSnapshot, runGit, h1]
  · intro h1 h2 h3
    simp [restoreGitSnapshot, runGit, h1, h2, h3]
  · intro h
    simp [rejectDeslop, h]
  · intro h
    simp [rejectDeslop, h]

/-- Witness for the restore theorem: a snapshot without a second parent
(the second-parent restore throws and the fallback succeeds) and a
snapshot whose worktree restore fails, surfacing the error as an abort. -/
theorem deslopRestoreSemantics_witness :
    restoreGitSnapshot
        (fun c => if c = stagedParentRestoreCmd "snap" then some "bad revision" else none)
        "snap" =
      Except.ok [worktreeRestoreCmd "snap", stagedRestoreCmd "snap"]
    ∧ restoreGitSnapshot
        (fun c => if c = worktreeRestoreCmd "snap" then some "disk full" else none)
        "snap" = Except.error "disk full"
    ∧ rejectDeslop
        (fun c => if c = worktreeRestoreCmd "snap" then some "disk full" else none)
        (some "snap") = (DeslopFlowResult.abort, some "disk full") := by
  have h1 := (deslopRestoreSemantics
    (fun c => if c = stagedParentRestoreCmd "snap" then some "bad revision" else none)
    "snap" "x" "bad revision" "x" []).2.1 (by decide) (by decide) (by decide)
  have h2 := (deslopRestoreSemantics
    (fun c => if c = worktreeRestoreCmd "snap" then some "disk full" else none)
    "snap" "disk full" "x" "x" []).2.2.1 (by decide)
  exact ⟨h1, h2, (deslopRestoreSemantics
    (fun c => if c = worktreeRestoreCmd "snap" then some "disk full" else none)
    "snap" "disk full" "x" "x" []).2.2.2.2.1 h2⟩

theorem jsIndexOf_eq_none_iff : ∀ (l : List Char) (c : Char), jsIndexOf l c = none ↔ c ∉ l := by
  intro l c
  induction l with
  | nil => simp [jsIndexOf]
  | cons x xs ih =>
    by_cases hx : x = c
    · simp [jsIndexOf, hx]
    · simp only [jsIndexOf, if_neg hx, Option.map_eq_none', List.mem_cons]
      rw [ih]
      constructor
      · intro h hc
        rcases hc with hc | hc
        · exact hx hc.symm
        · exact h hc
      · intro h hc
        exact h (Or.inr hc)

theorem jsIndexOf_decomp :
    ∀ (l : List Char) (c : Char) (i : Nat), jsIndexOf l c = some i →
      l.take i ++ c :: l.drop (i + 1) = l := by
  intro l
  induction l with
  | nil => intro c i h; simp [jsIndexOf] at h
  | cons x xs ih =>
    intro c i h
    by_cases hx : x = c
    · rw [jsIndexOf, if_pos hx] at h
      injection h with h
      subst h
      simp [hx]
    · rw [jsIndexOf, if_neg hx] at h
      rcases Option.map_eq_some'.mp h with ⟨j, hj, hij⟩
      subst hij
      simp only [List.take_succ_cons, List.drop_succ_cons, List.cons_append,
        List.cons.injEq, true_and]
      exact ih c j hj

theorem dropWhile_isWs_of_noWs (l : List Char) (h : ∀ c ∈ l, isWs c = false) :
    l.dropWhile isWs = l := by
  cases l with
  | nil => rfl
  | cons x xs =>
    rw [List.dropWhile_cons, h x (List.mem_cons_self _ _)]
    simp

theorem jsTrim_of_noWs (l : List Char) (h : ∀ c ∈ l, isWs c = false) : jsTrim l = l := by
  unfold jsTrim
  rw [dropWhile_isWs_of_noWs l h,
    dropWhile_isWs_of_noWs l.reverse (fun c hc => h c (List.mem_reverse.mp hc)),
    List.reverse_reverse]

theorem dropWhile_isWs_of_allWs (l : List Char) (h : ∀ c ∈ l, isWs c = true) :
    l.dropWhile isWs = [] := by
  induction l with
  | nil => rfl
  | cons x xs ih =>
    rw [List.dropWhile_cons, h x (List.mem_cons_self _ _)]
    simp only [if_true]
    exact ih (fun c hc => h c (List.mem_cons_of_mem _ hc))

theorem jsTrim_of_allWs (l : List Char) (h : ∀ c ∈ l, isWs c = true) : jsTrim l = [] := by
  unfold jsTrim
  rw [dropWhile_isWs_of_allWs l h]
  rfl

/-- C10: `parseModelString` throws on whitespace-only input; with no
slash it returns provider `opencode` and the trimmed input as model id;
with a slash it splits the trimmed input at the first slash into a
trimmed provider and a trimmed model id, throwing when either side is
empty; and `formatModelID` is a left inverse on every well-formed
provider/model string with no inner whitespace: the round trip returns
the trimmed input. -/
theorem parseModelStringSemantics (s : List Char) (i : Nat) (m : ModelConfig) :
    ((∀ c ∈ s, isWs c = true) → parseModelString s = Except.error invalidModelMessage)
    ∧ (jsTrim s ≠ [] → '/' ∉ jsTrim s →
        parseModelString s = Except.ok ⟨"opencode".data, jsTrim s⟩)
    ∧ (jsTrim s ≠ [] → jsIndexOf (jsTrim s) '/' = some i →
        parseModelString s =
          (if jsTrim ((jsTrim s).take i) = [] ∨ jsTrim ((jsTrim s).drop (i + 1)) = []
           then Except.error invalidModelMessage
           else Except.ok ⟨jsTrim ((jsTrim s).take i), jsTrim ((jsTrim s).drop (i + 1))⟩))
    ∧ (parseModelString s = Except.ok m → '/' ∈ jsTrim s →
        (∀ c ∈ jsTrim s, isWs c = false) → formatModelID m = jsTrim s) := by
  refine ⟨?_, ?_, ?_, ?_⟩
  · intro h
    rw [parseModelString]
    simp [jsTrim_of_allWs s h]
  · intro h0 hns
    rw [parseModelString]
    simp only [if_neg h0]
    rw [(jsIndexOf_eq_none_iff (jsTrim s) '/').mpr hns]
  · intro h0 hidx
    rw [parseModelString]
    simp only [if_neg h0]
    rw [hidx]
  · intro hok hslash hnows
    by_cases h0 : jsTrim s = []
    · rw [parseModelString, if_pos h0] at hok
      exact absurd hok (by simp)
    · cases hidx : jsIndexOf (jsTrim s) '/' with
      | none =>
        exact absurd hslash ((jsIndexOf_eq_none_iff _ _).mp hidx)
      | some i =>
        rw [parseModelString] at hok
        simp only [if_neg h0] at hok
        rw [hidx] at hok
        have hok' : (if jsTrim ((jsTrim s).take i) = [] ∨ jsTrim ((jsTrim s).drop (i + 1)) = []
            then (Except.error invalidModelMessage : Except String ModelConfig)
            else Except.ok ⟨jsTrim ((jsTrim s).take i), jsTrim ((jsTrim s).drop (i + 1))⟩) =
            Except.ok m := hok
        by_cases hpm : jsTrim ((jsTrim s).take i) = [] ∨ jsTrim ((jsTrim s).drop (i + 1)) = []
        · rw [if_pos hpm] at hok'
          exact absurd hok' (by simp)
        · rw [if_neg hpm] at hok'
          injection hok' with hok
          subst hok
          rw [formatModelID]
          rw [jsTrim_of_noWs _ (fun c hc => hnows c (List.take_subset _ _ hc)),
            jsTrim_of_noWs _ (fun c hc => hnows c (List.drop_subset _ _ hc))]
          exact jsIndexOf_decomp _ '/' i hidx

/-- Witness for the model-string theorem: a whitespace-only string, a
slashless string, and the round trip on a padded provider/model string. -/
theorem parseModelStringSemantics_witness :
    parseModelString "  ".data = Except.error invalidModelMessage
    ∧ parseModelString " gpt5 ".data = Except.ok ⟨"opencode".data, jsTrim " gpt5 ".data⟩
    ∧ parseModelString " a1/b2 ".data = Except.ok ⟨"a1".data, "b2".data⟩
    ∧ formatModelID ⟨"a1".data, "b2".data⟩ = jsTrim " a1/b2 ".data :=
  ⟨(parseModelStringSemantics "  ".data 0 ⟨[], []⟩).1 (by decide),
    (parseModelStringSemantics " gpt5 ".data 0 ⟨[], []⟩).2.1 (by decide) (by decide),
    rfl,
    (parseModelStringSemantics " a1/b2 ".data 0 ⟨"a1".data, "b2".data⟩).2.2.2
      rfl (by decide) (by decide)⟩
